import Mathlib

/-!
Verification of the yedxtract path-addressed tree accessor and extract/merge
engine (`src/graphml.ts`, types from `src/types.ts`).

The TypeScript code is shallowly embedded: the dynamic XML value
(`IXMLValue = string | IXMLField | Array<string | IXMLField>`) becomes a
three-variant inductive tree, JS objects become insertion-ordered association
lists, exceptions become `Except`, and the `undefined` value that JS property
access produces for absent keys becomes `Option.none`.  The merge engine
mutates the graph in place through the references held in the collected
elements; the embedding models this functionally, returning the updated
collected fragments together with the emitted warnings.
-/

namespace Yedxtract

/-- A path segment as accepted by `getNestedProperty` / `setNestedProperty`
(`Array<string | number>` in the source). -/
inductive JSKey where
  | str (s : String)
  | num (n : Nat)
deriving DecidableEq, Repr

/-- JS property keys are coerced to strings on object assignment
(`obj[lastKey] = value`). -/
def keyToString : JSKey → String
  | .str s => s
  | .num n => toString n

/-- The generic XML tree value: `IXMLValue = string | IXMLField | Array<...>`.
A field map is an insertion-ordered association list, as a parsed JS object. -/
inductive IXMLValue where
  | str (s : String)
  | field (entries : List (String × IXMLValue))
  | arr (items : List IXMLValue)

/-- The errors thrown by the accessor and engine code.  `typeErrorUndefined`
stands for the runtime `TypeError` raised by JS when a property of
`undefined` is accessed or assigned. -/
inductive JSError where
  | stringEncountered
  | singletonViolation
  | invalidValue
  | typeErrorUndefined
  | notString
  | notArray
  | notXMLField
  | emptyKeys
  | dataMissing
  | keyAttributesMissing
  | keyMissing
  | singleDataFieldNotFound
  | properItemDataNotFound
  | dataNotField
  | multipleChildTypes
  | fieldNotArray
  | multipleInstances
  | invalidElementInstance
deriving DecidableEq, Repr

/-- JS object property lookup: first entry with the key (keys are unique in
parsed objects), `none` when absent (`undefined`). -/
def lookupL {α : Type} : List (String × α) → String → Option α
  | [], _ => none
  | (k', v) :: t, k => if k' = k then some v else lookupL t k

/-- JS object property assignment `obj[k] = v`: overwrite the existing entry
in place, or append a fresh one. -/
def setField : List (String × IXMLValue) → String → IXMLValue → List (String × IXMLValue)
  | [], k, v => [(k, v)]
  | (k', v') :: t, k, v => if k' = k then (k, v) :: t else (k', v') :: setField t k v

/-- The traversal loop of `getNestedProperty` (graphml.ts:374-395).  The
current value is an `Option` because JS indexing an absent key or an
out-of-range index yields `undefined` and the loop keeps going. -/
def getNPLoop : List JSKey → Option IXMLValue → Except JSError (Option IXMLValue)
  | [], v => .ok v
  | _ :: _, some (.str _) => .error .stringEncountered
  | .num n :: ks, some (.arr xs) => getNPLoop ks (xs.get? n)
  | .str s :: ks, some (.arr xs) =>
      if s = "[0]" then
        match xs with
        | [x] => getNPLoop ks (some x)
        | _ => .error .singletonViolation
      else .error .invalidValue
  | .str s :: ks, some (.field m) => getNPLoop ks (lookupL m s)
  | .num _ :: _, some (.field _) => .error .invalidValue
  | .str _ :: _, none => .error .typeErrorUndefined
  | .num _ :: _, none => .error .invalidValue

/-- `getNestedProperty(data, keys)` (graphml.ts:374-395). -/
def getNestedProperty (data : IXMLValue) (keys : List JSKey) : Except JSError (Option IXMLValue) :=
  getNPLoop keys (some data)

/-- `getNestedString` (graphml.ts:354-358): the resolved value must be a
string leaf. -/
def getNestedString (data : IXMLValue) (keys : List JSKey) : Except JSError String :=
  match getNestedProperty data keys with
  | .ok (some (.str s)) => .ok s
  | .ok _ => .error .notString
  | .error e => .error e

/-- `getNestedArray` (graphml.ts:360-364): the resolved value must be a
list. -/
def getNestedArray (data : IXMLValue) (keys : List JSKey) : Except JSError (List IXMLValue) :=
  match getNestedProperty data keys with
  | .ok (some (.arr xs)) => .ok xs
  | .ok _ => .error .notArray
  | .error e => .error e

/-- `getNestedXMLField` (graphml.ts:367-372): rejects strings and arrays.
Note it lets `undefined` through, which a subsequent property assignment
turns into a `TypeError`. -/
def getNestedXMLField (data : IXMLValue) (keys : List JSKey) :
    Except JSError (Option (List (String × IXMLValue))) :=
  match getNestedProperty data keys with
  | .ok (some (.str _)) => .error .notXMLField
  | .ok (some (.arr _)) => .error .notXMLField
  | .ok (some (.field m)) => .ok (some m)
  | .ok none => .ok none
  | .error e => .error e

/-- The error the JS code produces when the traversal has reached `undefined`
and `ks` prefix segments remain before the final assignment: a string segment
dereferences `undefined` (`TypeError`), a numeric one falls into the
`Invalid value` branch, and with no segments left the final assignment
`obj[lastKey] = value` itself is the `TypeError`. -/
def undefTailErr : List JSKey → JSError
  | [] => .typeErrorUndefined
  | .str _ :: _ => .typeErrorUndefined
  | .num _ :: _ => .invalidValue

/-- Functional core of `setNestedProperty` (graphml.ts:397-406): descend
along the prefix keys exactly as `getNestedProperty` does, then require the
resolved container to be a field map (`getNestedXMLField`) and write the
final slot, rebuilding the tree along the way.  In the source the write is
an in-place mutation through the resolved reference; the rebuilt tree is the
value the mutated structure holds afterwards. -/
def updateAt : List JSKey → IXMLValue → JSKey → IXMLValue → Except JSError IXMLValue
  | [], .field m, last, val => .ok (.field (setField m (keyToString last) val))
  | [], .str _, _, _ => .error .notXMLField
  | [], .arr _, _, _ => .error .notXMLField
  | _ :: _, .str _, _, _ => .error .stringEncountered
  | .num n :: ks, .arr xs, last, val =>
      match xs.get? n with
      | none => .error (undefTailErr ks)
      | some x => (updateAt ks x last val).map fun x2 => .arr (xs.set n x2)
  | .str s :: ks, .arr xs, last, val =>
      if s = "[0]" then
        match xs with
        | [x] => (updateAt ks x last val).map fun x2 => .arr [x2]
        | _ => .error .singletonViolation
      else .error .invalidValue
  | .str s :: ks, .field m, last, val =>
      match lookupL m s with
      | none => .error (undefTailErr ks)
      | some x => (updateAt ks x last val).map fun x2 => .field (setField m s x2)
  | .num _ :: _, .field _, _, _ => .error .invalidValue

/-- `setNestedProperty(data, keys, value)` (graphml.ts:397-406): empty key
lists are rejected, the prefix is resolved with `getNestedXMLField`, and the
final slot is written. -/
def setNestedProperty (data : IXMLValue) (keys : List JSKey) (value : IXMLValue) :
    Except JSError IXMLValue :=
  match keys.getLast? with
  | none => .error .emptyKeys
  | some last => updateAt keys.dropLast data last value

example : getNestedProperty (.field [("a", .str "x")]) [.str "a"] = .ok (some (.str "x")) := rfl
example : getNestedProperty (.field [("a", .str "x")]) [.str "b"] = .ok none := rfl
example : getNestedProperty (.field [("a", .str "x")]) [.str "b", .str "c"] =
    .error .typeErrorUndefined := rfl
example : getNestedProperty (.field [("a", .arr [.str "x", .str "y"])]) [.str "a", .num 1] =
    .ok (some (.str "y")) := rfl
example : getNestedProperty (.field [("a", .arr [.str "x", .str "y"])]) [.str "a", .str "[0]"] =
    .error .singletonViolation := rfl
example : setNestedProperty (.field [("a", .field [("b", .str "x")])]) [.str "a", .str "c"]
    (.str "z") = .ok (.field [("a", .field [("b", .str "x"), ("c", .str "z")])]) := rfl
example : setNestedProperty (.field [("a", .arr [.str "x", .str "y"])]) [.str "a", .num 0]
    (.str "z") = .error .notXMLField := rfl
example : setNestedProperty (.field [("a", .str "x")]) [] (.str "z") = .error .emptyKeys := rfl

/-! ## Graph model and entity collector (graphml.ts:144-224) -/

/-- Entity kind: `'node' | 'edge'`. -/
inductive UnitType where
  | node
  | edge
deriving DecidableEq, Repr

/-- `type + 'graphics'`, the `yfiles.type` attribute value searched for. -/
def unitTypeGraphics : UnitType → String
  | .node => "nodegraphics"
  | .edge => "edgegraphics"

/-- One declared key element (`TGraphmlKeys` entry): its `$` attribute
record. -/
structure GraphmlKey where
  attrs : List (String × String)
deriving DecidableEq, Repr

/-- One `<graph>` element: its node and edge element lists, each possibly
absent at runtime. -/
structure IGraphmlGraph where
  node : Option (List IXMLValue)
  edge : Option (List IXMLValue)

/-- The parsed graphml document: `graph.graphml.graph` and
`graph.graphml.key`; `keys = none` models a missing / non-array `key`
attribute. -/
structure IGraphml where
  graphs : List IGraphmlGraph
  keys : Option (List GraphmlKey)

/-- `graph.graphml.graph[0]?.[type]`. -/
def graphData (g : IGraphml) (t : UnitType) : Option (List IXMLValue) :=
  match g.graphs.head? with
  | none => none
  | some g0 => match t with
    | .node => g0.node
    | .edge => g0.edge

/-- `findKeyId(keys, keyAttribute, keyValue)` (graphml.ts:218-224): find the
first key whose named attribute equals the value, then read its `id`
attribute; a single `'... key missing'` error covers both a missing match
and a match without `id`. -/
def findKeyId (keys : List GraphmlKey) (keyAttribute : String) (keyValue : String) :
    Except JSError String :=
  match keys.find? (fun k => lookupL k.attrs keyAttribute = some keyValue) with
  | none => .error .keyMissing
  | some k =>
      match lookupL k.attrs "id" with
      | none => .error .keyMissing
      | some id => .ok id

/-- `Array.prototype.map` with a throwing callback: left-to-right, the first
exception aborts. -/
def mapE {α β : Type} (f : α → Except JSError β) : List α → Except JSError (List β)
  | [] => .ok []
  | x :: t =>
      match f x with
      | .error e => .error e
      | .ok y =>
          match mapE f t with
          | .error e => .error e
          | .ok r => .ok (y :: r)

/-- `Array.prototype.filter` with a throwing predicate: left-to-right, the
first exception aborts. -/
def filterE {α : Type} (p : α → Except JSError Bool) : List α → Except JSError (List α)
  | [] => .ok []
  | x :: t =>
      match p x with
      | .error e => .error e
      | .ok b =>
          match filterE p t with
          | .error e => .error e
          | .ok r => .ok (if b then x :: r else r)

/-- `IGraphUnit` (types.ts): one collected node or edge.  `attributes` is
whatever `getNestedXMLField(item, ['$'])` produced, hence an `Option`. -/
structure IGraphUnit where
  id : String
  type : UnitType
  source : Option String := none
  target : Option String := none
  data : IXMLValue
  attributes : Option (List (String × IXMLValue))

/-- The body of the `data.map(item => ...)` callback in `getGraphUnit`
(graphml.ts:172-207). -/
def processItem (dataKey : String) (t : UnitType) (item : IXMLValue) :
    Except JSError IGraphUnit :=
  match getNestedString item [.str "$", .str "id"] with
  | .error e => .error e
  | .ok id =>
  match getNestedArray item [.str "data"] with
  | .error e => .error e
  | .ok itemDataFields =>
  match filterE
      (fun k => match k with
        | .str _ => .ok false
        | _ =>
            match getNestedString k [.str "$", .str "key"] with
            | .error e => .error e
            | .ok s => .ok (s = dataKey))
      itemDataFields with
  | .error e => .error e
  | .ok withKey =>
  match withKey with
  | [itemData] =>
      match itemData with
      | .str _ => .error .properItemDataNotFound
      | _ =>
          match getNestedXMLField item [.str "$"] with
          | .error e => .error e
          | .ok attrs =>
              match t with
              | .node => .ok { id := id, type := t, data := itemData, attributes := attrs }
              | .edge =>
                  match getNestedString item [.str "$", .str "source"] with
                  | .error e => .error e
                  | .ok source =>
                  match getNestedString item [.str "$", .str "target"] with
                  | .error e => .error e
                  | .ok target =>
                      .ok { id := id, type := t, source := some source,
                            target := some target, data := itemData, attributes := attrs }
  | _ => .error .singleDataFieldNotFound

/-- `getGraphUnit(graph, type)` (graphml.ts:160-208): the entity collector
for one kind. -/
def getGraphUnit (g : IGraphml) (t : UnitType) : Except JSError (List IGraphUnit) :=
  match graphData g t with
  | none => .error .dataMissing
  | some data =>
      match g.keys with
      | none => .error .keyAttributesMissing
      | some graphKeys =>
          match findKeyId graphKeys "yfiles.type" (unitTypeGraphics t) with
          | .error e => .error e
          | .ok dataKey => mapE (processItem dataKey t) data

/-- `getAllGraphUnits(graph)` (graphml.ts:144-149): nodes then edges. -/
def getAllGraphUnits (g : IGraphml) : Except JSError (List IGraphUnit) :=
  match getGraphUnit g .node with
  | .error e => .error e
  | .ok nodes =>
      match getGraphUnit g .edge with
      | .error e => .error e
      | .ok edges => .ok (nodes ++ edges)

/-! ## Field schema and extractor (graphml.ts:236-352) -/

/-- `IExtractFields` (types.ts): per-scope schemas; each maps an output
field name to a path given as a string array (`IExtractFieldsUnit`). -/
structure IExtractFields where
  node : Option (List (String × List String)) := none
  edge : Option (List (String × List String)) := none
  common : Option (List (String × List String)) := none

/-- `fieldsToExtract[element.type] ?? {}`. -/
def kindFields (f : IExtractFields) : UnitType → List (String × List String)
  | .node => f.node.getD []
  | .edge => f.edge.getD []

/-- JS object spread `{...a, ...b}`: `a`'s keys in order with values
overridden by `b` where both occur, then `b`'s remaining keys. -/
def spreadMerge {α : Type} (a b : List (String × α)) : List (String × α) :=
  (a.map fun kv => (kv.1, (lookupL b kv.1).getD kv.2)) ++
    b.filter fun kv => (lookupL a kv.1).isNone

/-- The effective per-kind field set
`{...(fieldsToExtract[element.type] ?? {}), ...(fieldsToExtract.common ?? {})}`
built identically by `extractFields` (graphml.ts:309-312) and by
`updateGraph` (graphml.ts:116-119). -/
def effectiveFields (f : IExtractFields) (t : UnitType) : List (String × List String) :=
  spreadMerge (kindFields f t) (f.common.getD [])

/-- `IExtractedGraphUnit` (types.ts): a collected entity together with its
single visual child element. -/
structure IExtractedGraphUnit where
  id : String
  type : UnitType
  source : Option String := none
  target : Option String := none
  data : IXMLValue
  attributes : Option (List (String × IXMLValue))
  unitType : String
  elements : IXMLValue

/-- One step of `extractElements(data)` called without an `elements`
argument, as both `extractFields` (graphml.ts:304) and `updateGraph`
(graphml.ts:86) do: the entity's `data` field map must have exactly one
non-`$` child type, holding a singleton array whose sole element is not a
string; that element becomes `elements`.  `item.data` is typed `IXMLField`
in types.ts, so a non-field `data` is rejected. -/
def extractElementsOne (item : IGraphUnit) : Except JSError IExtractedGraphUnit :=
  match item.data with
  | .field dataM =>
      match (dataM.map Prod.fst).filter (fun k => k ≠ "$") with
      | [childType] =>
          match lookupL dataM childType with
          | some (.arr xs) =>
              match xs with
              | [el] =>
                  match el with
                  | .str _ => .error .invalidElementInstance
                  | _ => .ok { id := item.id, type := item.type, source := item.source,
                               target := item.target, data := item.data,
                               attributes := item.attributes, unitType := childType,
                               elements := el }
              | _ => .error .multipleInstances
          | _ => .error .fieldNotArray
      | _ => .error .multipleChildTypes
  | _ => .error .dataNotField

/-- The fixed label path: `['y:NodeLabel', '[0]', '_']` for nodes and
`['y:EdgeLabel', '[0]', '_']` for edges (graphml.ts:100-113, 325-334). -/
def labelPath : UnitType → List JSKey
  | .node => [.str "y:NodeLabel", .str "[0]", .str "_"]
  | .edge => [.str "y:EdgeLabel", .str "[0]", .str "_"]

/-- A JS value that may be a string, `null`, or `undefined` — the runtime
type of an edited record's `label` and user-field cells. -/
inductive JSVal where
  | undef
  | null
  | str (s : String)
deriving DecidableEq, Repr

/-- `v ?? ''` for a non-`undefined` string-or-null value. -/
def jsOrEmpty : JSVal → String
  | .str s => s
  | _ => ""

/-- `try getNestedString(...) catch -> null` (graphml.ts:316-323). -/
def tryGetString (data : IXMLValue) (keys : List JSKey) : Option String :=
  match getNestedString data keys with
  | .ok s => some s
  | .error _ => none

/-- `IOutputUnit` (types.ts): one flat record. -/
structure IOutputUnit where
  id : String
  type : UnitType
  source : Option String := none
  target : Option String := none
  unitType : Option String := none
  label : JSVal := .undef
  fields : List (String × JSVal) := []

/-- The body of the `elements.map(...)` in `extractFields`
(graphml.ts:306-351): resolve every effective schema field (absent paths
degrade to `null`), then the fixed label path. -/
def extractFieldsOne (fieldsToExtract : IExtractFields) (element : IExtractedGraphUnit) :
    IOutputUnit :=
  let fields := effectiveFields fieldsToExtract element.type
  let result := fields.map fun kv =>
    (kv.1, match tryGetString element.elements (kv.2.map JSKey.str) with
           | some s => JSVal.str s
           | none => JSVal.null)
  let label := match tryGetString element.elements (labelPath element.type) with
    | some s => JSVal.str s
    | none => JSVal.null
  { id := element.id, type := element.type,
    source := if element.type = .edge then element.source else none,
    target := if element.type = .edge then element.target else none,
    unitType := some element.unitType, label := label, fields := result }

/-- `extractFields(data, fieldsToExtract)` (graphml.ts:300-352). -/
def extractFields (data : List IGraphUnit) (fieldsToExtract : IExtractFields) :
    Except JSError (List IOutputUnit) :=
  match mapE extractElementsOne data with
  | .error e => .error e
  | .ok elements => .ok (elements.map (extractFieldsOne fieldsToExtract))

/-! ## Merge engine (graphml.ts:80-135)

`updateGraph` mutates the graph in place through the references held in the
collected elements (`element.attributes` and `element.elements` point into
the tree).  The functional embedding below threads the list of collected
elements through the loop and returns the updated fragments together with
the `console.warn` messages, in order. -/

def warnUnknownRow (id : String) : String :=
  "Unknown input row (id=" ++ id ++ ")"

def warnUnknownField (field : String) : String :=
  "Field without entry in extractedFields metadata, skipping (" ++ field ++ ")"

/-- The user-defined fields loop (graphml.ts:121-131): `undefined` cells are
skipped silently, a field name without a schema entry warns and is skipped,
otherwise `setNestedProperty(element.elements, propPath, val ?? '')`. -/
def applyFields (eff : List (String × List String)) :
    IXMLValue → List (String × JSVal) → Except JSError (IXMLValue × List String)
  | cur, [] => .ok (cur, [])
  | cur, (f, v) :: rest =>
      match v with
      | .undef => applyFields eff cur rest
      | v =>
          match lookupL eff f with
          | none =>
              match applyFields eff cur rest with
              | .error e => .error e
              | .ok r => .ok (r.1, warnUnknownField f :: r.2)
          | some propPath =>
              match setNestedProperty cur (propPath.map JSKey.str) (.str (jsOrEmpty v)) with
              | .error e => .error e
              | .ok cur2 => applyFields eff cur2 rest

/-- The per-matched-record body of the merge loop (graphml.ts:96-131):
update the fixed fields `source`, `target`, `label`, then the user-defined
fields. -/
def applyUnit (extractedFields : IExtractFields) (e : IExtractedGraphUnit)
    (unit : IOutputUnit) : Except JSError (IExtractedGraphUnit × List String) :=
  match (match unit.source with
         | none => Except.ok e.attributes
         | some s =>
             match e.attributes with
             | none => Except.error JSError.typeErrorUndefined
             | some m => Except.ok (some (setField m "source" (.str s)))) with
  | .error e1 => .error e1
  | .ok att1 =>
  match (match unit.target with
         | none => Except.ok att1
         | some s =>
             match att1 with
             | none => Except.error JSError.typeErrorUndefined
             | some m => Except.ok (some (setField m "target" (.str s)))) with
  | .error e1 => .error e1
  | .ok att2 =>
  match (match unit.label with
         | .undef => Except.ok e.elements
         | v => setNestedProperty e.elements (labelPath e.type) (.str (jsOrEmpty v))) with
  | .error e1 => .error e1
  | .ok elems1 =>
  match applyFields (effectiveFields extractedFields e.type) elems1 unit.fields with
  | .error e1 => .error e1
  | .ok r => .ok ({ e with attributes := att2, elements := r.1 }, r.2)

/-- `elements.find(e => e.id === unit.id)` as an index. -/
def findUnitIdx : List IExtractedGraphUnit → String → Option Nat
  | [], _ => none
  | e :: t, id =>
      if e.id = id then some 0
      else (findUnitIdx t id).map (· + 1)

/-- One iteration of the merge loop (graphml.ts:88-132): an unmatched
identifier warns and leaves everything unchanged; a matched one is updated
in place. -/
def updateUnitsStep (extractedFields : IExtractFields)
    (elements : List IExtractedGraphUnit) (unit : IOutputUnit) :
    Except JSError (List IExtractedGraphUnit × List String) :=
  match findUnitIdx elements unit.id with
  | none => .ok (elements, [warnUnknownRow unit.id])
  | some i =>
      match elements.get? i with
      | none => .ok (elements, [warnUnknownRow unit.id])
      | some e =>
          match applyUnit extractedFields e unit with
          | .error e1 => .error e1
          | .ok r => .ok (elements.set i r.1, r.2)

/-- The merge loop of `updateGraph` over all edited records, threading the
collected elements and accumulating warnings chronologically. -/
def updateUnits (extractedFields : IExtractFields)
    (elements : List IExtractedGraphUnit) :
    List IOutputUnit → Except JSError (List IExtractedGraphUnit × List String)
  | [] => .ok (elements, [])
  | u :: rest =>
      match updateUnitsStep extractedFields elements u with
      | .error e => .error e
      | .ok r1 =>
          match updateUnits extractedFields r1.1 rest with
          | .error e => .error e
          | .ok r2 => .ok (r2.1, r1.2 ++ r2.2)

/-- `updateGraph(graph, newUnits, extractedFields)` (graphml.ts:80-135):
collect, extract the elements, and run the merge loop.  The source returns
the mutated `graph`; the embedding returns the updated collected fragments
(the parts of the tree the code can mutate) plus the warnings. -/
def updateGraph (graph : IGraphml) (newUnits : List IOutputUnit)
    (extractedFields : IExtractFields) :
    Except JSError (List IExtractedGraphUnit × List String) :=
  match getAllGraphUnits graph with
  | .error e => .error e
  | .ok oldUnits =>
      match mapE extractElementsOne oldUnits with
      | .error e => .error e
      | .ok elements => updateUnits extractedFields elements newUnits

/-! ## Helper lemmas -/

theorem lookupL_setField_self (m : List (String × IXMLValue)) (k : String) (v : IXMLValue) :
    lookupL (setField m k v) k = some v := by
  induction m with
  | nil => simp [setField, lookupL]
  | cons kv t ih =>
      by_cases h : kv.1 = k
      · simp [setField, h, lookupL]
      · simp [setField, h, lookupL, ih]

theorem lookupL_setField_ne (m : List (String × IXMLValue)) (k k' : String) (v : IXMLValue)
    (h : k' ≠ k) : lookupL (setField m k v) k' = lookupL m k' := by
  have hne : k ≠ k' := Ne.symm h
  induction m with
  | nil => simp [setField, lookupL, hne]
  | cons kv t ih =>
      by_cases hk : kv.1 = k
      · simp [setField, hk, lookupL, hne]
      · simp [setField, hk, lookupL, ih]

theorem get?_set_self {α : Type} (l : List α) (i : Nat) (a : α) (h : i < l.length) :
    (l.set i a).get? i = some a := by
  induction l generalizing i with
  | nil => simp at h
  | cons x t ih =>
      cases i with
      | zero => simp [List.set]
      | succ j =>
          simp only [List.set, List.get?]
          exact ih j (by simpa using h)

theorem get?_set_ne {α : Type} (l : List α) (i j : Nat) (a : α) (h : i ≠ j) :
    (l.set i a).get? j = l.get? j := by
  induction l generalizing i j with
  | nil => simp
  | cons x t ih =>
      cases i with
      | zero =>
          cases j with
          | zero => exact absurd rfl h
          | succ j' => simp [List.set]
      | succ i' =>
          cases j with
          | zero => simp [List.set]
          | succ j' =>
              simp only [List.set, List.get?]
              exact ih i' j' (fun hc => h (by simp [hc]))

theorem lookupL_append {α : Type} (u w : List (String × α)) (k : String) :
    lookupL (u ++ w) k =
      match lookupL u k with
      | some v => some v
      | none => lookupL w k := by
  induction u with
  | nil => simp [lookupL]
  | cons kv t ih =>
      by_cases h : kv.1 = k
      · simp [lookupL, h]
      · simp [lookupL, h, ih]

theorem lookupL_mapKeyed {α β : Type} (a : List (String × α)) (g : String → α → β)
    (k : String) :
    lookupL (a.map fun kv => (kv.1, g kv.1 kv.2)) k = (lookupL a k).map (g k) := by
  induction a with
  | nil => simp [lookupL]
  | cons kv t ih =>
      by_cases h : kv.1 = k
      · simp [lookupL, h]
      · simp [lookupL, h, ih]

theorem lookupL_filter_key_true {α : Type} (b : List (String × α))
    (p : String × α → Bool) (k : String) (hp : ∀ v, p (k, v) = true) :
    lookupL (b.filter p) k = lookupL b k := by
  induction b with
  | nil => simp
  | cons kv t ih =>
      by_cases h : kv.1 = k
      · have : p kv = true := by
          have := hp kv.2
          rwa [show (k, kv.2) = kv by rw [← h]] at this
        simp [List.filter, this, lookupL, h, ih]
      · cases hpkv : p kv with
        | true => simp [List.filter, hpkv, lookupL, h, ih]
        | false => simp [List.filter, hpkv, lookupL, h, ih]

theorem lookupL_spreadMerge {α : Type} (a b : List (String × α)) (k : String) :
    lookupL (spreadMerge a b) k =
      match lookupL b k with
      | some v => some v
      | none => lookupL a k := by
  unfold spreadMerge
  rw [lookupL_append]
  rw [lookupL_mapKeyed a (fun k v => (lookupL b k).getD v) k]
  cases ha : lookupL a k with
  | some v =>
      cases hb : lookupL b k with
      | some w => simp
      | none => simp
  | none =>
      rw [lookupL_filter_key_true b _ k (by intro v; simp [ha])]
      cases hb : lookupL b k with
      | some w => simp
      | none => simp [ha]

theorem length_of_get?_some {α : Type} {l : List α} {n : Nat} {a : α}
    (h : l.get? n = some a) : n < l.length := by
  induction l generalizing n with
  | nil => simp [List.get?] at h
  | cons x t ih =>
      cases n with
      | zero => simp
      | succ m =>
          simp only [List.get?] at h
          exact Nat.succ_lt_succ (ih h)

theorem except_map_ok {ε α β : Type} (f : α → β) (e : Except ε α) (b : β) :
    e.map f = .ok b ↔ ∃ a, e = .ok a ∧ f a = b := by
  cases e <;> simp [Except.map]

theorem getNPLoop_cons_none (k : JSKey) (ks : List JSKey) :
    getNPLoop (k :: ks) none = .error (undefTailErr (k :: ks)) := by
  cases k <;> rfl

theorem getNPLoop_cons_str (k : JSKey) (ks : List JSKey) (s : String) :
    getNPLoop (k :: ks) (some (.str s)) = .error .stringEncountered := by
  cases k <;> rfl

theorem getNPLoop_num_arr (n : Nat) (ks : List JSKey) (xs : List IXMLValue) :
    getNPLoop (.num n :: ks) (some (.arr xs)) = getNPLoop ks (xs.get? n) := rfl

theorem getNPLoop_str_field (s : String) (ks : List JSKey) (m : List (String × IXMLValue)) :
    getNPLoop (.str s :: ks) (some (.field m)) = getNPLoop ks (lookupL m s) := rfl

theorem getNPLoop_num_field (n : Nat) (ks : List JSKey) (m : List (String × IXMLValue)) :
    getNPLoop (.num n :: ks) (some (.field m)) = .error .invalidValue := rfl

theorem getNPLoop_zero_arr (ks : List JSKey) (xs : List IXMLValue) :
    getNPLoop (.str "[0]" :: ks) (some (.arr xs)) =
      match xs with
      | [x] => getNPLoop ks (some x)
      | _ => .error .singletonViolation := by
  cases xs with
  | nil => rfl
  | cons x t =>
      cases t with
      | nil => rfl
      | cons y t' => rfl

theorem getNPLoop_strne_arr (s : String) (ks : List JSKey) (xs : List IXMLValue)
    (hs : s ≠ "[0]") :
    getNPLoop (.str s :: ks) (some (.arr xs)) = .error .invalidValue := by
  simp [getNPLoop, hs]

theorem updateAt_nil_field (m : List (String × IXMLValue)) (last : JSKey) (val : IXMLValue) :
    updateAt [] (.field m) last val = .ok (.field (setField m (keyToString last) val)) := rfl

theorem updateAt_nil_str (s : String) (last : JSKey) (val : IXMLValue) :
    updateAt [] (.str s) last val = .error .notXMLField := rfl

theorem updateAt_nil_arr (xs : List IXMLValue) (last : JSKey) (val : IXMLValue) :
    updateAt [] (.arr xs) last val = .error .notXMLField := rfl

theorem updateAt_cons_str (k : JSKey) (ks : List JSKey) (s : String) (last : JSKey)
    (val : IXMLValue) :
    updateAt (k :: ks) (.str s) last val = .error .stringEncountered := by
  cases k <;> rfl

theorem updateAt_num_arr (n : Nat) (ks : List JSKey) (xs : List IXMLValue) (last : JSKey)
    (val : IXMLValue) :
    updateAt (.num n :: ks) (.arr xs) last val =
      match xs.get? n with
      | none => .error (undefTailErr ks)
      | some x => (updateAt ks x last val).map fun x2 => .arr (xs.set n x2) := rfl

theorem updateAt_str_field (s : String) (ks : List JSKey) (m : List (String × IXMLValue))
    (last : JSKey) (val : IXMLValue) :
    updateAt (.str s :: ks) (.field m) last val =
      match lookupL m s with
      | none => .error (undefTailErr ks)
      | some x => (updateAt ks x last val).map fun x2 => .field (setField m s x2) := rfl

theorem updateAt_num_field (n : Nat) (ks : List JSKey) (m : List (String × IXMLValue))
    (last : JSKey) (val : IXMLValue) :
    updateAt (.num n :: ks) (.field m) last val = .error .invalidValue := rfl

theorem updateAt_zero_arr (ks : List JSKey) (xs : List IXMLValue) (last : JSKey)
    (val : IXMLValue) :
    updateAt (.str "[0]" :: ks) (.arr xs) last val =
      match xs with
      | [x] => (updateAt ks x last val).map fun x2 => .arr [x2]
      | _ => .error .singletonViolation := by
  cases xs with
  | nil => rfl
  | cons x t =>
      cases t with
      | nil => rfl
      | cons y t' => rfl

theorem updateAt_strne_arr (s : String) (ks : List JSKey) (xs : List IXMLValue)
    (last : JSKey) (val : IXMLValue) (hs : s ≠ "[0]") :
    updateAt (.str s :: ks) (.arr xs) last val = .error .invalidValue := by
  simp [updateAt, hs]

theorem getNPLoop_append (p q : List JSKey) (ov : Option IXMLValue) :
    getNPLoop (p ++ q) ov = (getNPLoop p ov).bind (getNPLoop q) := by
  induction p generalizing ov with
  | nil => rfl
  | cons k ks ih =>
      cases ov with
      | none => cases k <;> rfl
      | some v =>
          cases v with
          | str s => rw [List.cons_append, getNPLoop_cons_str, getNPLoop_cons_str]; rfl
          | field m =>
              cases k with
              | str s =>
                  rw [List.cons_append, getNPLoop_str_field, getNPLoop_str_field, ih]
              | num n => rfl
          | arr xs =>
              cases k with
              | num n =>
                  rw [List.cons_append, getNPLoop_num_arr, getNPLoop_num_arr, ih]
              | str s =>
                  by_cases hs : s = "[0]"
                  · subst hs
                    rw [List.cons_append, getNPLoop_zero_arr, getNPLoop_zero_arr]
                    cases xs with
                    | nil => rfl
                    | cons x t =>
                        cases t with
                        | nil => exact ih (some x)
                        | cons y t' => rfl
                  · rw [List.cons_append, getNPLoop_strne_arr _ _ _ hs,
                      getNPLoop_strne_arr _ _ _ hs]
                    rfl

theorem getNPLoop_singleton_err (xs : List IXMLValue) (q : List JSKey)
    (h : xs.length ≠ 1) :
    getNPLoop (.str "[0]" :: q) (some (.arr xs)) = .error .singletonViolation := by
  cases xs with
  | nil => rfl
  | cons x t =>
      cases t with
      | nil => exact absurd rfl h
      | cons y t' => rfl

/-- Everything `updateAt` accepts resolves, via the get traversal, to a field
map before the write, and to that map with the final slot written after it. -/
theorem updateAt_ok_char (pre : List JSKey) (v : IXMLValue) (last : JSKey)
    (val : IXMLValue) (v' : IXMLValue) (h : updateAt pre v last val = .ok v') :
    ∃ m, getNPLoop pre (some v) = .ok (some (.field m)) ∧
      getNPLoop pre (some v') = .ok (some (.field (setField m (keyToString last) val))) := by
  induction pre generalizing v v' with
  | nil =>
      cases v with
      | str s => rw [updateAt_nil_str] at h; exact absurd h (by simp)
      | arr xs => rw [updateAt_nil_arr] at h; exact absurd h (by simp)
      | field m =>
          refine ⟨m, rfl, ?_⟩
          rw [updateAt_nil_field] at h
          simp only [Except.ok.injEq] at h
          rw [← h]
          rfl
  | cons k ks ih =>
      cases v with
      | str s => rw [updateAt_cons_str] at h; exact absurd h (by simp)
      | field m0 =>
          cases k with
          | num n => rw [updateAt_num_field] at h; exact absurd h (by simp)
          | str s =>
              rw [updateAt_str_field] at h
              cases hl : lookupL m0 s with
              | none => rw [hl] at h; exact absurd h (by simp)
              | some x =>
                  rw [hl] at h
                  obtain ⟨x2, hx2, hv'⟩ := (except_map_ok _ _ _).mp h
                  obtain ⟨m, h1, h2⟩ := ih x x2 hx2
                  refine ⟨m, ?_, ?_⟩
                  · rw [getNPLoop_str_field, hl]; exact h1
                  · rw [← hv', getNPLoop_str_field, lookupL_setField_self]; exact h2
      | arr xs =>
          cases k with
          | num n =>
              rw [updateAt_num_arr] at h
              cases hg : xs.get? n with
              | none => rw [hg] at h; exact absurd h (by simp)
              | some x =>
                  rw [hg] at h
                  obtain ⟨x2, hx2, hv'⟩ := (except_map_ok _ _ _).mp h
                  obtain ⟨m, h1, h2⟩ := ih x x2 hx2
                  refine ⟨m, ?_, ?_⟩
                  · rw [getNPLoop_num_arr, hg]; exact h1
                  · rw [← hv', getNPLoop_num_arr,
                      get?_set_self xs n x2 (length_of_get?_some hg)]
                    exact h2
          | str s =>
              by_cases hs : s = "[0]"
              · subst hs
                rw [updateAt_zero_arr] at h
                cases xs with
                | nil => exact absurd h (by simp)
                | cons x t =>
                    cases t with
                    | cons y t' => exact absurd h (by simp)
                    | nil =>
                        obtain ⟨x2, hx2, hv'⟩ := (except_map_ok _ _ _).mp h
                        obtain ⟨m, h1, h2⟩ := ih x x2 hx2
                        refine ⟨m, ?_, ?_⟩
                        · rw [getNPLoop_zero_arr]; exact h1
                        · rw [← hv', getNPLoop_zero_arr]; exact h2
              · rw [updateAt_strne_arr _ _ _ _ _ hs] at h
                exact absurd h (by simp)

/-- Whether two path segments may address the same slot: equal keys after JS
string coercion, or the singleton selector `'[0]'` versus index `0`. -/
def keyAlias : JSKey → JSKey → Bool
  | .str s, .str t => s = t
  | .num n, .num n' => n = n'
  | .str s, .num n => s = toString n || (s = "[0]" && n = 0)
  | .num n, .str s => s = toString n || (s = "[0]" && n = 0)

/-- `divergesB q p` holds when `q` and `p` agree on some proper prefix of
both and then continue with segments that cannot address the same slot. -/
def divergesB : List JSKey → List JSKey → Bool
  | a :: q, b :: p => if a = b then divergesB q p else !(keyAlias a b)
  | _, _ => false

/-- When the get traversal of the prefix reaches a field map, the write
succeeds (the final slot need not exist). -/
theorem updateAt_ok_of_get (pre : List JSKey) (v : IXMLValue) (last : JSKey)
    (val : IXMLValue) (m : List (String × IXMLValue))
    (h : getNPLoop pre (some v) = .ok (some (.field m))) :
    ∃ v', updateAt pre v last val = .ok v' := by
  induction pre generalizing v m with
  | nil =>
      simp only [getNPLoop, Except.ok.injEq, Option.some.injEq] at h
      rw [h]
      exact ⟨_, updateAt_nil_field m last val⟩
  | cons k ks ih =>
      cases v with
      | str s => rw [getNPLoop_cons_str] at h; exact absurd h (by simp)
      | field m0 =>
          cases k with
          | num n => rw [getNPLoop_num_field] at h; exact absurd h (by simp)
          | str s =>
              rw [getNPLoop_str_field] at h
              cases hl : lookupL m0 s with
              | none =>
                  rw [hl] at h
                  cases ks with
                  | nil => exact absurd h (by simp [getNPLoop])
                  | cons k' ks' => rw [getNPLoop_cons_none] at h; exact absurd h (by simp)
              | some x =>
                  rw [hl] at h
                  obtain ⟨v2, hv2⟩ := ih x m h
                  exact ⟨.field (setField m0 s v2), by
                    rw [updateAt_str_field, hl]
                    simp [hv2, Except.map]⟩
      | arr xs =>
          cases k with
          | num n =>
              rw [getNPLoop_num_arr] at h
              cases hg : xs.get? n with
              | none =>
                  rw [hg] at h
                  cases ks with
                  | nil => exact absurd h (by simp [getNPLoop])
                  | cons k' ks' => rw [getNPLoop_cons_none] at h; exact absurd h (by simp)
              | some x =>
                  rw [hg] at h
                  obtain ⟨v2, hv2⟩ := ih x m h
                  exact ⟨.arr (xs.set n v2), by
                    rw [updateAt_num_arr, hg]
                    simp [hv2, Except.map]⟩
          | str s =>
              by_cases hs : s = "[0]"
              · subst hs
                rw [getNPLoop_zero_arr] at h
                cases xs with
                | nil => exact absurd h (by simp)
                | cons x t =>
                    cases t with
                    | cons y t' => exact absurd h (by simp)
                    | nil =>
                        obtain ⟨v2, hv2⟩ := ih x m h
                        exact ⟨.arr [v2], by
                          rw [updateAt_zero_arr]
                          simp [hv2, Except.map]⟩
              · rw [getNPLoop_strne_arr _ _ _ hs] at h
                exact absurd h (by simp)

/-- Frame property of the write: any get path that diverges from the written
path resolves identically before and after the write. -/
theorem updateAt_frame (pre : List JSKey) (v v' : IXMLValue) (last : JSKey)
    (val : IXMLValue) (q : List JSKey) (h : updateAt pre v last val = .ok v')
    (hd : divergesB q (pre ++ [last]) = true) :
    getNPLoop q (some v') = getNPLoop q (some v) := by
  induction pre generalizing v v' q with
  | nil =>
      cases q with
      | nil => simp [divergesB] at hd
      | cons a q' =>
          simp only [List.nil_append, divergesB] at hd
          by_cases hac : a = last
          · rw [if_pos hac] at hd
            simp [divergesB] at hd
          · rw [if_neg hac] at hd
            simp only [Bool.not_eq_true'] at hd
            cases v with
            | str s => rw [updateAt_nil_str] at h; exact absurd h (by simp)
            | arr xs => rw [updateAt_nil_arr] at h; exact absurd h (by simp)
            | field m =>
                rw [updateAt_nil_field] at h
                simp only [Except.ok.injEq] at h
                rw [← h]
                cases a with
                | num n' => rw [getNPLoop_num_field, getNPLoop_num_field]
                | str s' =>
                    rw [getNPLoop_str_field, getNPLoop_str_field]
                    have hne : s' ≠ keyToString last := by
                      cases last with
                      | str t => simp [keyAlias] at hd; simpa [keyToString] using hd
                      | num n => simp [keyAlias] at hd; simpa [keyToString] using hd.1
                    rw [lookupL_setField_ne _ _ _ _ hne]
  | cons c pre' ih =>
      cases q with
      | nil => simp [divergesB] at hd
      | cons a q' =>
          simp only [List.cons_append, divergesB] at hd
          by_cases hac : a = c
          · rw [if_pos hac] at hd
            subst hac
            cases v with
            | str s => rw [updateAt_cons_str] at h; exact absurd h (by simp)
            | field m0 =>
                cases a with
                | num n => rw [updateAt_num_field] at h; exact absurd h (by simp)
                | str s =>
                    rw [updateAt_str_field] at h
                    cases hl : lookupL m0 s with
                    | none => rw [hl] at h; exact absurd h (by simp)
                    | some x =>
                        rw [hl] at h
                        obtain ⟨x2, hx2, hv'⟩ := (except_map_ok _ _ _).mp h
                        rw [← hv', getNPLoop_str_field, getNPLoop_str_field,
                          lookupL_setField_self, hl]
                        exact ih x x2 q' hx2 hd
            | arr xs =>
                cases a with
                | num n =>
                    rw [updateAt_num_arr] at h
                    cases hg : xs.get? n with
                    | none => rw [hg] at h; exact absurd h (by simp)
                    | some x =>
                        rw [hg] at h
                        obtain ⟨x2, hx2, hv'⟩ := (except_map_ok _ _ _).mp h
                        rw [← hv', getNPLoop_num_arr, getNPLoop_num_arr,
                          get?_set_self xs n x2 (length_of_get?_some hg), hg]
                        exact ih x x2 q' hx2 hd
                | str s =>
                    by_cases hs : s = "[0]"
                    · subst hs
                      rw [updateAt_zero_arr] at h
                      cases xs with
                      | nil => exact absurd h (by simp)
                      | cons x t =>
                          cases t with
                          | cons y t' => exact absurd h (by simp)
                          | nil =>
                              obtain ⟨x2, hx2, hv'⟩ := (except_map_ok _ _ _).mp h
                              rw [← hv', getNPLoop_zero_arr, getNPLoop_zero_arr]
                              exact ih x x2 q' hx2 hd
                    · rw [updateAt_strne_arr _ _ _ _ _ hs] at h
                      exact absurd h (by simp)
          · rw [if_neg hac] at hd
            simp only [Bool.not_eq_true'] at hd
            cases v with
            | str s => rw [updateAt_cons_str] at h; exact absurd h (by simp)
            | field m0 =>
                cases c with
                | num n => rw [updateAt_num_field] at h; exact absurd h (by simp)
                | str t =>
                    rw [updateAt_str_field] at h
                    cases hl : lookupL m0 t with
                    | none => rw [hl] at h; exact absurd h (by simp)
                    | some x =>
                        rw [hl] at h
                        obtain ⟨x2, hx2, hv'⟩ := (except_map_ok _ _ _).mp h
                        rw [← hv']
                        cases a with
                        | num n' => rw [getNPLoop_num_field, getNPLoop_num_field]
                        | str s' =>
                            have hne : s' ≠ t := by simp [keyAlias] at hd; exact hd
                            rw [getNPLoop_str_field, getNPLoop_str_field,
                              lookupL_setField_ne _ _ _ _ hne]
            | arr xs =>
                cases c with
                | num n =>
                    rw [updateAt_num_arr] at h
                    cases hg : xs.get? n with
                    | none => rw [hg] at h; exact absurd h (by simp)
                    | some x =>
                        rw [hg] at h
                        obtain ⟨x2, hx2, hv'⟩ := (except_map_ok _ _ _).mp h
                        rw [← hv']
                        cases a with
                        | num n' =>
                            have hne : n ≠ n' := by
                              simp [keyAlias] at hd
                              exact fun he => hd he.symm
                            rw [getNPLoop_num_arr, getNPLoop_num_arr,
                              get?_set_ne xs n n' x2 hne]
                        | str s' =>
                            by_cases hs' : s' = "[0]"
                            · subst hs'
                              simp [keyAlias] at hd
                              have hn0 : n ≠ 0 := hd.2
                              have hlen : xs.length ≠ 1 := by
                                intro h1
                                have := length_of_get?_some hg
                                rw [h1] at this
                                interval_cases n
                                · exact hn0 rfl
                              rw [getNPLoop_singleton_err _ _ (by simpa using hlen),
                                getNPLoop_singleton_err _ _ hlen]
                            · rw [getNPLoop_strne_arr _ _ _ hs',
                                getNPLoop_strne_arr _ _ _ hs']
                | str t =>
                    by_cases hs : t = "[0]"
                    · subst hs
                      rw [updateAt_zero_arr] at h
                      cases xs with
                      | nil => exact absurd h (by simp)
                      | cons x t0 =>
                          cases t0 with
                          | cons y t' => exact absurd h (by simp)
                          | nil =>
                              obtain ⟨x2, hx2, hv'⟩ := (except_map_ok _ _ _).mp h
                              rw [← hv']
                              cases a with
                              | str s' =>
                                  have hs' : s' ≠ "[0]" := fun he => hac (by rw [he])
                                  rw [getNPLoop_strne_arr _ _ _ hs',
                                    getNPLoop_strne_arr _ _ _ hs']
                              | num n' =>
                                  have hn0 : n' ≠ 0 := by
                                    simp [keyAlias] at hd
                                    exact hd.2
                                  rw [getNPLoop_num_arr, getNPLoop_num_arr]
                                  cases n' with
                                  | zero => exact absurd rfl hn0
                                  | succ m => rfl
                    · rw [updateAt_strne_arr _ _ _ _ _ hs] at h
                      exact absurd h (by simp)

/-- `updateAt` reproduces the resolve-then-assign structure of the source
also on failures: a prefix-resolution error is re-raised as-is, a prefix
resolving to `undefined` makes the final assignment a `TypeError`, and a
prefix resolving to a string or array is the `Property not IXMLField`
error of `getNestedXMLField`. -/
theorem updateAt_resolve_error (pre : List JSKey) (v : IXMLValue) (last : JSKey)
    (val : IXMLValue) :
    (∀ e, getNPLoop pre (some v) = .error e → updateAt pre v last val = .error e) ∧
    (getNPLoop pre (some v) = .ok none →
      updateAt pre v last val = .error .typeErrorUndefined) ∧
    (∀ s, getNPLoop pre (some v) = .ok (some (.str s)) →
      updateAt pre v last val = .error .notXMLField) ∧
    (∀ xs, getNPLoop pre (some v) = .ok (some (.arr xs)) →
      updateAt pre v last val = .error .notXMLField) := by
  induction pre generalizing v with
  | nil =>
      refine ⟨?_, ?_, ?_, ?_⟩
      · intro e h
        exact absurd h (by simp [getNPLoop])
      · intro h
        exact absurd h (by simp [getNPLoop])
      · intro s h
        simp only [getNPLoop, Except.ok.injEq, Option.some.injEq] at h
        rw [h]
        exact updateAt_nil_str s last val
      · intro xs h
        simp only [getNPLoop, Except.ok.injEq, Option.some.injEq] at h
        rw [h]
        exact updateAt_nil_arr xs last val
  | cons k ks ih =>
      cases v with
      | str s0 =>
          rw [getNPLoop_cons_str, updateAt_cons_str]
          refine ⟨?_, ?_, ?_, ?_⟩
          · intro e h
            simp only [Except.error.injEq] at h
            rw [h]
          · intro h
            exact absurd h (by simp)
          · intro s h
            exact absurd h (by simp)
          · intro xs h
            exact absurd h (by simp)
      | field m0 =>
          cases k with
          | num n =>
              rw [getNPLoop_num_field, updateAt_num_field]
              refine ⟨?_, ?_, ?_, ?_⟩
              · intro e h
                simp only [Except.error.injEq] at h
                rw [h]
              · intro h
                exact absurd h (by simp)
              · intro s h
                exact absurd h (by simp)
              · intro xs h
                exact absurd h (by simp)
          | str s =>
              rw [getNPLoop_str_field, updateAt_str_field]
              cases hl : lookupL m0 s with
              | none =>
                  cases ks with
                  | nil =>
                      refine ⟨?_, ?_, ?_, ?_⟩
                      · intro e h
                        exact absurd h (by simp [getNPLoop])
                      · intro h
                        rfl
                      · intro s1 h
                        exact absurd h (by simp [getNPLoop])
                      · intro xs h
                        exact absurd h (by simp [getNPLoop])
                  | cons k' ks' =>
                      rw [getNPLoop_cons_none]
                      refine ⟨?_, ?_, ?_, ?_⟩
                      · intro e h
                        simp only [Except.error.injEq] at h
                        rw [h]
                      · intro h
                        exact absurd h (by simp)
                      · intro s1 h
                        exact absurd h (by simp)
                      · intro xs h
                        exact absurd h (by simp)
              | some x =>
                  obtain ⟨ih1, ih2, ih3, ih4⟩ := ih x
                  refine ⟨?_, ?_, ?_, ?_⟩
                  · intro e h
                    simp only [ih1 e h, Except.map]
                  · intro h
                    simp only [ih2 h, Except.map]
                  · intro s1 h
                    simp only [ih3 s1 h, Except.map]
                  · intro xs h
                    simp only [ih4 xs h, Except.map]
      | arr xs0 =>
          cases k with
          | num n =>
              rw [getNPLoop_num_arr, updateAt_num_arr]
              cases hg : xs0.get? n with
              | none =>
                  cases ks with
                  | nil =>
                      refine ⟨?_, ?_, ?_, ?_⟩
                      · intro e h
                        exact absurd h (by simp [getNPLoop])
                      · intro h
                        rfl
                      · intro s1 h
                        exact absurd h (by simp [getNPLoop])
                      · intro xs h
                        exact absurd h (by simp [getNPLoop])
                  | cons k' ks' =>
                      rw [getNPLoop_cons_none]
                      refine ⟨?_, ?_, ?_, ?_⟩
                      · intro e h
                        simp only [Except.error.injEq] at h
                        rw [h]
                      · intro h
                        exact absurd h (by simp)
                      · intro s1 h
                        exact absurd h (by simp)
                      · intro xs h
                        exact absurd h (by simp)
              | some x =>
                  obtain ⟨ih1, ih2, ih3, ih4⟩ := ih x
                  refine ⟨?_, ?_, ?_, ?_⟩
                  · intro e h
                    simp only [ih1 e h, Except.map]
                  · intro h
                    simp only [ih2 h, Except.map]
                  · intro s1 h
                    simp only [ih3 s1 h, Except.map]
                  · intro xs h
                    simp only [ih4 xs h, Except.map]
          | str s =>
              by_cases hs : s = "[0]"
              · subst hs
                rw [getNPLoop_zero_arr, updateAt_zero_arr]
                cases xs0 with
                | nil =>
                    refine ⟨?_, ?_, ?_, ?_⟩
                    · intro e h
                      simp only [Except.error.injEq] at h
                      rw [h]
                    · intro h
                      exact absurd h (by simp)
                    · intro s1 h
                      exact absurd h (by simp)
                    · intro xs h
                      exact absurd h (by simp)
                | cons x t0 =>
                    cases t0 with
                    | cons y t' =>
                        refine ⟨?_, ?_, ?_, ?_⟩
                        · intro e h
                          simp only [Except.error.injEq] at h
                          rw [h]
                        · intro h
                          exact absurd h (by simp)
                        · intro s1 h
                          exact absurd h (by simp)
                        · intro xs h
                          exact absurd h (by simp)
                    | nil =>
                        obtain ⟨ih1, ih2, ih3, ih4⟩ := ih x
                        refine ⟨?_, ?_, ?_, ?_⟩
                        · intro e h
                          simp only [ih1 e h, Except.map]
                        · intro h
                          simp only [ih2 h, Except.map]
                        · intro s1 h
                          simp only [ih3 s1 h, Except.map]
                        · intro xs h
                          simp only [ih4 xs h, Except.map]
              · rw [getNPLoop_strne_arr _ _ _ hs, updateAt_strne_arr _ _ _ _ _ hs]
                refine ⟨?_, ?_, ?_, ?_⟩
                · intro e h
                  simp only [Except.error.injEq] at h
                  rw [h]
                · intro h
                  exact absurd h (by simp)
                · intro s1 h
                  exact absurd h (by simp)
                · intro xs h
                  exact absurd h (by simp)

theorem dropLast_concat_of_getLast? {α : Type} :
    ∀ (l : List α) (a : α), l.getLast? = some a → l.dropLast ++ [a] = l
  | [], a, h => by simp at h
  | [x], a, h => by
      simp only [List.getLast?_singleton, Option.some.injEq] at h
      rw [← h]
      rfl
  | x :: y :: t, a, h => by
      rw [List.getLast?_cons_cons] at h
      have ih := dropLast_concat_of_getLast? (y :: t) a h
      calc (x :: y :: t).dropLast ++ [a] = x :: ((y :: t).dropLast ++ [a]) := by
            simp [List.dropLast]
        _ = x :: y :: t := by rw [ih]

theorem setNestedProperty_nil (data : IXMLValue) (value : IXMLValue) :
    setNestedProperty data [] value = .error .emptyKeys := rfl

theorem setNestedProperty_concat (data : IXMLValue) (pre : List JSKey) (last : JSKey)
    (value : IXMLValue) :
    setNestedProperty data (pre ++ [last]) value = updateAt pre data last value := by
  simp only [setNestedProperty, List.getLast?_concat, List.dropLast_concat]

/-- `setNestedProperty` follows `getNestedXMLField` on the prefix exactly:
its errors are re-raised verbatim, a prefix resolving to `undefined` turns
the final assignment into a `TypeError`, and a field-map prefix makes the
write succeed. -/
theorem setNestedProperty_matches_getNestedXMLField (data : IXMLValue)
    (pre : List JSKey) (last : JSKey) (value : IXMLValue) :
    (∀ e, getNestedXMLField data pre = .error e →
      setNestedProperty data (pre ++ [last]) value = .error e) ∧
    (getNestedXMLField data pre = .ok none →
      setNestedProperty data (pre ++ [last]) value = .error .typeErrorUndefined) ∧
    (∀ m, getNestedXMLField data pre = .ok (some m) →
      ∃ r, setNestedProperty data (pre ++ [last]) value = .ok r) := by
  obtain ⟨h1, h2, h3, h4⟩ := updateAt_resolve_error pre data last value
  refine ⟨?_, ?_, ?_⟩
  · intro e he
    rw [setNestedProperty_concat]
    rw [getNestedXMLField] at he
    cases hget : getNestedProperty data pre with
    | error e0 =>
        rw [hget] at he
        simp only [Except.error.injEq] at he
        rw [← he]
        exact h1 e0 hget
    | ok ov =>
        rw [hget] at he
        cases ov with
        | none => exact absurd he (by simp)
        | some x =>
            cases x with
            | str s =>
                simp only [Except.error.injEq] at he
                rw [← he]
                exact h3 s hget
            | arr xs =>
                simp only [Except.error.injEq] at he
                rw [← he]
                exact h4 xs hget
            | field m => exact absurd he (by simp)
  · intro he
    rw [setNestedProperty_concat]
    rw [getNestedXMLField] at he
    cases hget : getNestedProperty data pre with
    | error e0 =>
        rw [hget] at he
        exact absurd he (by simp)
    | ok ov =>
        rw [hget] at he
        cases ov with
        | none => exact h2 hget
        | some x =>
            cases x with
            | str s => exact absurd he (by simp)
            | arr xs => exact absurd he (by simp)
            | field m => exact absurd he (by simp)
  · intro m he
    rw [getNestedXMLField] at he
    cases hget : getNestedProperty data pre with
    | error e0 =>
        rw [hget] at he
        exact absurd he (by simp)
    | ok ov =>
        rw [hget] at he
        cases ov with
        | none => exact absurd he (by simp)
        | some x =>
            cases x with
            | str s => exact absurd he (by simp)
            | arr xs => exact absurd he (by simp)
            | field m0 =>
                simp only [Except.ok.injEq, Option.some.injEq] at he
                obtain ⟨r, hr⟩ := updateAt_ok_of_get pre data last value m0 hget
                exact ⟨r, by rw [setNestedProperty_concat]; exact hr⟩

theorem mapE_ok {α β : Type} (f : α → Except JSError β) (xs : List α) (ys : List β)
    (h : mapE f xs = .ok ys) :
    ys.length = xs.length ∧
      ∀ i x y, xs.get? i = some x → ys.get? i = some y → f x = .ok y := by
  induction xs generalizing ys with
  | nil =>
      simp only [mapE, Except.ok.injEq] at h
      subst h
      refine ⟨rfl, ?_⟩
      intro i x y hx
      simp at hx
  | cons a t ih =>
      cases hf : f a with
      | error e =>
          simp only [mapE, hf] at h
          exact Except.noConfusion h
      | ok y0 =>
          simp only [mapE, hf] at h
          cases hm : mapE f t with
          | error e =>
              simp only [hm] at h
              exact Except.noConfusion h
          | ok r =>
              simp only [hm, Except.ok.injEq] at h
              subst h
              obtain ⟨hlen, hall⟩ := ih r hm
              refine ⟨by simp [hlen], ?_⟩
              intro i x y hx hy
              cases i with
              | zero =>
                  simp only [List.get?, Option.some.injEq] at hx hy
                  rw [← hx, ← hy]
                  exact hf
              | succ j =>
                  simp only [List.get?] at hx hy
                  exact hall j x y hx hy

/-! ## Claims -/

/-- C1, counterexample: with a schema declaring both a node entry and a
common entry under the output name `x`, the effective field set maps `x` to
the common path, not the kind-specific one as the claim states. -/
theorem C1_counterexample :
    lookupL (effectiveFields
      { node := some [("x", ["kindPath"])], edge := none,
        common := some [("x", ["commonPath"])] } .node) "x" = some ["commonPath"] ∧
    lookupL (effectiveFields
      { node := some [("x", ["kindPath"])], edge := none,
        common := some [("x", ["commonPath"])] } .node) "x" ≠ some ["kindPath"] := by
  exact ⟨rfl, by decide⟩

/-- C1 (amended): on a name collision the `common` entry takes precedence
over the kind-specific one in the effective field set built by the Field
Extractor and the Merge Engine (`{...kind, ...common}` spreads `common`
last), and a name absent from `common` falls back to the kind-specific
entry. -/
theorem C1_common_overrides_kind (f : IExtractFields) (t : UnitType) (name : String) :
    lookupL (effectiveFields f t) name =
      match lookupL (f.common.getD []) name with
      | some p => some p
      | none => lookupL (kindFields f t) name := by
  rw [effectiveFields, lookupL_spreadMerge]
  cases lookupL (f.common.getD []) name <;> rfl

/-- C2, counterexample: a string segment absent from the current field map
does not fail when it is the final segment of the path — `get` returns
`undefined` (`Option.none`) without an error. -/
theorem C2_counterexample :
    getNestedProperty (.field [("a", .str "x")]) [.str "b"] = .ok none ∧
    ∀ e, getNestedProperty (.field [("a", .str "x")]) [.str "b"] ≠ .error e := by
  refine ⟨rfl, ?_⟩
  intro e h
  exact Except.noConfusion h

/-- C2 (amended): an absent string key or an out-of-range numeric index makes
`get` fail only when it is not the final segment (the failure surfaces at the
following segment); as the final segment it yields `undefined` without an
error. -/
theorem C2_absent_segment :
    (∀ (data : IXMLValue) (p : List JSKey) (m : List (String × IXMLValue)) (s : String)
        (ks : List JSKey),
      getNestedProperty data p = .ok (some (.field m)) → lookupL m s = none →
        (ks = [] → getNestedProperty data (p ++ [.str s]) = .ok none) ∧
        (ks ≠ [] → ∃ e, getNestedProperty data (p ++ (.str s :: ks)) = .error e)) ∧
    (∀ (data : IXMLValue) (p : List JSKey) (xs : List IXMLValue) (n : Nat)
        (ks : List JSKey),
      getNestedProperty data p = .ok (some (.arr xs)) → xs.get? n = none →
        (ks = [] → getNestedProperty data (p ++ [.num n]) = .ok none) ∧
        (ks ≠ [] → ∃ e, getNestedProperty data (p ++ (.num n :: ks)) = .error e)) := by
  constructor
  · intro data p m s ks hp hl
    rw [getNestedProperty] at hp
    constructor
    · intro hks
      subst hks
      show getNPLoop (p ++ [JSKey.str s]) (some data) = .ok none
      rw [getNPLoop_append, hp]
      show getNPLoop [JSKey.str s] (some (.field m)) = .ok none
      rw [getNPLoop_str_field, hl]
      rfl
    · intro hks
      cases ks with
      | nil => exact absurd rfl hks
      | cons k' ks' =>
          refine ⟨undefTailErr (k' :: ks'), ?_⟩
          show getNPLoop (p ++ (JSKey.str s :: k' :: ks')) (some data) = _
          rw [getNPLoop_append, hp]
          show getNPLoop (JSKey.str s :: k' :: ks') (some (.field m)) = _
          rw [getNPLoop_str_field, hl, getNPLoop_cons_none]
  · intro data p xs n ks hp hg
    rw [getNestedProperty] at hp
    constructor
    · intro hks
      subst hks
      show getNPLoop (p ++ [JSKey.num n]) (some data) = .ok none
      rw [getNPLoop_append, hp]
      show getNPLoop [JSKey.num n] (some (.arr xs)) = .ok none
      rw [getNPLoop_num_arr, hg]
      rfl
    · intro hks
      cases ks with
      | nil => exact absurd rfl hks
      | cons k' ks' =>
          refine ⟨undefTailErr (k' :: ks'), ?_⟩
          show getNPLoop (p ++ (JSKey.num n :: k' :: ks')) (some data) = _
          rw [getNPLoop_append, hp]
          show getNPLoop (JSKey.num n :: k' :: ks') (some (.arr xs)) = _
          rw [getNPLoop_num_arr, hg, getNPLoop_cons_none]

theorem C2_absent_segment_witness :
    getNestedProperty (.field [("z", .str "w")]) ([] ++ [JSKey.str "q"]) = .ok none ∧
    (∃ e, getNestedProperty (.field [("z", .str "w")])
      ([] ++ (JSKey.str "q" :: [JSKey.str "r"])) = .error e) ∧
    getNestedProperty (.arr [.str "w"]) ([] ++ [JSKey.num 3]) = .ok none ∧
    (∃ e, getNestedProperty (.arr [.str "w"]) ([] ++ (JSKey.num 3 :: [JSKey.num 0])) =
      .error e) := by
  refine ⟨?_, ?_, ?_, ?_⟩
  · exact (C2_absent_segment.1 _ [] [("z", .str "w")] "q" [] rfl rfl).1 rfl
  · exact (C2_absent_segment.1 _ [] [("z", .str "w")] "q" [JSKey.str "r"] rfl rfl).2
      (by simp)
  · exact (C2_absent_segment.2 _ [] [.str "w"] 3 [] rfl rfl).1 rfl
  · exact (C2_absent_segment.2 _ [] [.str "w"] 3 [JSKey.num 0] rfl rfl).2 (by simp)

/-- C3, counterexample: `set` does not accept a `List` container — resolving
the prefix to a list raises the `Property not IXMLField` error, while the
claim states a resolved `List` container is accepted. -/
theorem C3_counterexample :
    getNestedProperty (.field [("a", .arr [.str "x", .str "y"])]) [.str "a"] =
      .ok (some (.arr [.str "x", .str "y"])) ∧
    setNestedProperty (.field [("a", .arr [.str "x", .str "y"])]) [.str "a", .num 0]
      (.str "z") = .error .notXMLField := ⟨rfl, rfl⟩

/-- C3 (amended): `set` resolves all but the last segment with the get
traversal and succeeds exactly when that prefix resolves to a `FieldMap`
(a `List` or leaf container is rejected); the final slot is then written,
and it may be absent beforehand (it is created). -/
theorem C3_set_requires_fieldmap (data : IXMLValue) (keys : List JSKey)
    (value : IXMLValue) :
    (∃ r, setNestedProperty data keys value = .ok r) ↔
      (keys ≠ [] ∧ ∃ m, getNestedProperty data keys.dropLast = .ok (some (.field m))) := by
  cases hk : keys.getLast? with
  | none =>
      have hnil : keys = [] := List.getLast?_eq_none_iff.mp hk
      subst hnil
      constructor
      · rintro ⟨r, hr⟩
        rw [setNestedProperty_nil] at hr
        exact Except.noConfusion hr
      · rintro ⟨hne, -⟩
        exact absurd rfl hne
  | some last =>
      have hne : keys ≠ [] := by
        intro hx
        subst hx
        simp at hk
      have hcat : keys.dropLast ++ [last] = keys := dropLast_concat_of_getLast? keys last hk
      constructor
      · rintro ⟨r, hr⟩
        rw [← hcat, setNestedProperty_concat] at hr
        obtain ⟨m, h1, -⟩ := updateAt_ok_char _ _ _ _ _ hr
        rw [← hcat]
        refine ⟨by simp, m, ?_⟩
        rw [List.dropLast_concat]
        exact h1
      · rintro ⟨-, m, hm⟩
        rw [getNestedProperty] at hm
        obtain ⟨v', hv'⟩ := updateAt_ok_of_get keys.dropLast data last value m hm
        refine ⟨v', ?_⟩
        rw [← hcat, setNestedProperty_concat]
        exact hv'

/-- C4: writing value `v` at a valid path whose intermediate segments exist
(the prefix resolves to a field map, the final segment is a string key) and
reading the same path back yields exactly `v`. -/
theorem C4_set_get_roundtrip (data : IXMLValue) (pre : List JSKey) (s : String)
    (v : IXMLValue) (m : List (String × IXMLValue))
    (hm : getNestedProperty data pre = .ok (some (.field m))) :
    ∃ t', setNestedProperty data (pre ++ [.str s]) v = .ok t' ∧
      getNestedProperty t' (pre ++ [.str s]) = .ok (some v) := by
  rw [getNestedProperty] at hm
  obtain ⟨t', ht⟩ := updateAt_ok_of_get pre data (.str s) v m hm
  refine ⟨t', by rw [setNestedProperty_concat]; exact ht, ?_⟩
  obtain ⟨m2, h1, h2⟩ := updateAt_ok_char pre data (.str s) v t' ht
  have hm2 : m2 = m := by
    rw [h1] at hm
    simpa using hm
  subst hm2
  rw [getNestedProperty, getNPLoop_append, h2]
  show getNPLoop [JSKey.str s] (some (.field (setField m2 (keyToString (.str s)) v))) =
    .ok (some v)
  rw [getNPLoop_str_field]
  show getNPLoop [] (lookupL (setField m2 s v) s) = .ok (some v)
  rw [lookupL_setField_self]
  rfl

theorem C4_set_get_roundtrip_witness :
    ∃ t', setNestedProperty (.field [("a", .field [("b", .str "old")])])
        ([.str "a"] ++ [.str "b"]) (.str "new") = .ok t' ∧
      getNestedProperty t' ([.str "a"] ++ [.str "b"]) = .ok (some (.str "new")) :=
  C4_set_get_roundtrip (.field [("a", .field [("b", .str "old")])]) [.str "a"] "b"
    (.str "new") [("b", .str "old")] rfl

/-- C5: whenever the collector succeeds it returns one record per raw element
of the requested kind (also when there are zero), in document order: the
`i`-th output record is the processing of the `i`-th raw element. -/
theorem C5_collect_length_order (g : IGraphml) (t : UnitType) (us : List IGraphUnit)
    (h : getGraphUnit g t = .ok us) :
    ∃ items graphKeys dataKey,
      graphData g t = some items ∧ g.keys = some graphKeys ∧
      findKeyId graphKeys "yfiles.type" (unitTypeGraphics t) = .ok dataKey ∧
      us.length = items.length ∧
      ∀ i x y, items.get? i = some x → us.get? i = some y →
        processItem dataKey t x = .ok y := by
  cases hgd : graphData g t with
  | none =>
      simp only [getGraphUnit, hgd] at h
      exact Except.noConfusion h
  | some items =>
      cases hgk : g.keys with
      | none =>
          simp only [getGraphUnit, hgd, hgk] at h
          exact Except.noConfusion h
      | some graphKeys =>
          cases hfk : findKeyId graphKeys "yfiles.type" (unitTypeGraphics t) with
          | error e =>
              simp only [getGraphUnit, hgd, hgk, hfk] at h
              exact Except.noConfusion h
          | ok dataKey =>
              simp only [getGraphUnit, hgd, hgk, hfk] at h
              obtain ⟨hlen, hall⟩ := mapE_ok _ _ _ h
              exact ⟨items, graphKeys, dataKey, rfl, rfl, hfk, hlen, hall⟩

/-- A small concrete document: one node, zero edges, both graphics keys
declared. -/
def sampleNodeItem : IXMLValue :=
  .field [("$", .field [("id", .str "n0")]),
          ("data", .arr [.field [("$", .field [("key", .str "d6")])]])]

def sampleGraph : IGraphml :=
  { graphs := [{ node := some [sampleNodeItem], edge := some [] }],
    keys := some [{ attrs := [("yfiles.type", "nodegraphics"), ("id", "d6")] },
                  { attrs := [("yfiles.type", "edgegraphics"), ("id", "d10")] }] }

def sampleUnit : IGraphUnit :=
  { id := "n0", type := .node,
    data := .field [("$", .field [("key", .str "d6")])],
    attributes := some [("id", .str "n0")] }

theorem C5_collect_length_order_witness :
    (∃ items graphKeys dataKey,
      graphData sampleGraph .node = some items ∧ sampleGraph.keys = some graphKeys ∧
      findKeyId graphKeys "yfiles.type" (unitTypeGraphics .node) = .ok dataKey ∧
      [sampleUnit].length = items.length ∧
      ∀ i x y, items.get? i = some x → [sampleUnit].get? i = some y →
        processItem dataKey .node x = .ok y) ∧
    (∃ items graphKeys dataKey,
      graphData sampleGraph .edge = some items ∧ sampleGraph.keys = some graphKeys ∧
      findKeyId graphKeys "yfiles.type" (unitTypeGraphics .edge) = .ok dataKey ∧
      ([] : List IGraphUnit).length = items.length ∧
      ∀ i x y, items.get? i = some x → ([] : List IGraphUnit).get? i = some y →
        processItem dataKey .edge x = .ok y) :=
  ⟨C5_collect_length_order sampleGraph .node [sampleUnit] rfl,
   C5_collect_length_order sampleGraph .edge [] rfl⟩

/-! ### Merge-engine computation helpers -/

theorem set_get?_self {α : Type} : ∀ (l : List α) (i : Nat) (a : α),
    l.get? i = some a → l.set i a = l
  | [], i, a, h => by simp at h
  | x :: t, 0, a, h => by
      simp only [List.get?, Option.some.injEq] at h
      rw [List.set, h]
  | x :: t, i + 1, a, h => by
      simp only [List.get?] at h
      rw [List.set, set_get?_self t i a h]

theorem applyFields_nil (eff : List (String × List String)) (cur : IXMLValue) :
    applyFields eff cur [] = .ok (cur, []) := rfl

theorem applyFields_undef (eff : List (String × List String)) (cur : IXMLValue)
    (f : String) (rest : List (String × JSVal)) :
    applyFields eff cur ((f, .undef) :: rest) = applyFields eff cur rest := rfl

theorem applyFields_null (eff : List (String × List String)) (cur cur2 : IXMLValue)
    (f : String) (p : List String) (rest : List (String × JSVal))
    (hpath : lookupL eff f = some p)
    (hset : setNestedProperty cur (p.map JSKey.str) (.str "") = .ok cur2) :
    applyFields eff cur ((f, .null) :: rest) = applyFields eff cur2 rest := by
  simp only [applyFields, jsOrEmpty, hpath, hset]

theorem applyFields_str (eff : List (String × List String)) (cur cur2 : IXMLValue)
    (f v : String) (p : List String) (rest : List (String × JSVal))
    (hpath : lookupL eff f = some p)
    (hset : setNestedProperty cur (p.map JSKey.str) (.str v) = .ok cur2) :
    applyFields eff cur ((f, .str v) :: rest) = applyFields eff cur2 rest := by
  simp only [applyFields, jsOrEmpty, hpath, hset]

theorem applyUnit_undef_label (fte : IExtractFields) (e : IExtractedGraphUnit)
    (id : String) (fs : List (String × JSVal)) (r : IXMLValue × List String)
    (hfields : applyFields (effectiveFields fte e.type) e.elements fs = .ok r) :
    applyUnit fte e { id := id, type := e.type, label := .undef, fields := fs } =
      .ok ({ e with elements := r.1 }, r.2) := by
  simp only [applyUnit, hfields]

theorem applyUnit_with_label (fte : IExtractFields) (e : IExtractedGraphUnit)
    (id : String) (lv : JSVal) (fs : List (String × JSVal)) (elems1 : IXMLValue)
    (r : IXMLValue × List String)
    (hlv : lv ≠ .undef)
    (hset : setNestedProperty e.elements (labelPath e.type) (.str (jsOrEmpty lv)) =
      .ok elems1)
    (hfields : applyFields (effectiveFields fte e.type) elems1 fs = .ok r) :
    applyUnit fte e { id := id, type := e.type, label := lv, fields := fs } =
      .ok ({ e with elements := r.1 }, r.2) := by
  cases lv with
  | undef => exact absurd rfl hlv
  | null => simp only [applyUnit, hset, hfields]
  | str l => simp only [applyUnit, hset, hfields]

theorem updateUnits_single (fte : IExtractFields) (elements : List IExtractedGraphUnit)
    (i : Nat) (e e' : IExtractedGraphUnit) (unit : IOutputUnit) (ws : List String)
    (hfind : findUnitIdx elements unit.id = some i)
    (hget : elements.get? i = some e)
    (happly : applyUnit fte e unit = .ok (e', ws)) :
    updateUnits fte elements [unit] = .ok (elements.set i e', ws) := by
  simp only [updateUnits, updateUnitsStep, hfind, hget, happly, List.append_nil]

/-- C6: merging one edited record that supplies only one user field leaves
every other collected element untouched, keeps every non-`elements` component
of the edited element, and leaves every get path that diverges from the
written schema path resolving exactly as before inside the edited element's
fragment. -/
theorem C6_merge_frame (fte : IExtractFields) (elements : List IExtractedGraphUnit)
    (i : Nat) (e : IExtractedGraphUnit) (id f val : String) (p : List String)
    (newElems : IXMLValue)
    (hfind : findUnitIdx elements id = some i)
    (hget : elements.get? i = some e)
    (hpath : lookupL (effectiveFields fte e.type) f = some p)
    (hset : setNestedProperty e.elements (p.map JSKey.str) (.str val) = .ok newElems) :
    updateUnits fte elements
        [{ id := id, type := e.type, label := .undef, fields := [(f, .str val)] }] =
      .ok (elements.set i { e with elements := newElems }, []) ∧
    (∀ j, j ≠ i → (elements.set i { e with elements := newElems }).get? j =
      elements.get? j) ∧
    (∀ q, divergesB q (p.map JSKey.str) = true →
      getNestedProperty newElems q = getNestedProperty e.elements q) := by
  refine ⟨?_, ?_, ?_⟩
  · have hfields : applyFields (effectiveFields fte e.type) e.elements [(f, .str val)] =
        .ok (newElems, []) := by
      rw [applyFields_str _ _ _ _ _ _ _ hpath hset, applyFields_nil]
    exact updateUnits_single fte elements i e _ _ [] hfind hget
      (applyUnit_undef_label fte e id [(f, .str val)] (newElems, []) hfields)
  · intro j hj
    exact get?_set_ne elements i j _ (Ne.symm hj)
  · intro q hq
    cases hk : (p.map JSKey.str).getLast? with
    | none =>
        rw [setNestedProperty, hk] at hset
        exact absurd hset (by simp)
    | some last =>
        have hcat := dropLast_concat_of_getLast? (p.map JSKey.str) last hk
        rw [← hcat, setNestedProperty_concat] at hset
        rw [← hcat] at hq
        show getNPLoop q (some newElems) = getNPLoop q (some e.elements)
        exact updateAt_frame _ _ _ _ _ _ hset hq

def sampleElement : IExtractedGraphUnit :=
  { id := "n1", type := .node, data := .field [], attributes := some [],
    unitType := "y:ShapeNode",
    elements := .field [("y:Fill", .field [("color", .str "red")]),
                        ("y:Geometry", .field [("w", .str "30")])] }

def sampleSchema : IExtractFields :=
  { node := some [("color", ["y:Fill", "color"])] }

theorem C6_merge_frame_witness :
    updateUnits sampleSchema [sampleElement]
        [{ id := "n1", type := .node, label := .undef,
           fields := [("color", .str "blue")] }] =
      .ok ([sampleElement].set 0
        { sampleElement with
            elements := .field [("y:Fill", .field [("color", .str "blue")]),
                                ("y:Geometry", .field [("w", .str "30")])] }, []) ∧
    ([sampleElement].set 0
      { sampleElement with
          elements := .field [("y:Fill", .field [("color", .str "blue")]),
                              ("y:Geometry", .field [("w", .str "30")])] }).get? 1 =
      [sampleElement].get? 1 ∧
    getNestedProperty (.field [("y:Fill", .field [("color", .str "blue")]),
                               ("y:Geometry", .field [("w", .str "30")])])
        [.str "y:Geometry"] =
      getNestedProperty sampleElement.elements [.str "y:Geometry"] := by
  have h := C6_merge_frame sampleSchema [sampleElement] 0 sampleElement "n1" "color"
    "blue" ["y:Fill", "color"]
    (.field [("y:Fill", .field [("color", .str "blue")]),
             ("y:Geometry", .field [("w", .str "30")])])
    rfl rfl rfl rfl
  exact ⟨h.1, h.2.1 1 (by decide), h.2.2 [.str "y:Geometry"] (by decide)⟩

/-- C7: an edited record whose identifier matches no collected element is
skipped with exactly one warning and mutates nothing: the merge of the whole
batch equals the merge of the remaining records alone, starting from the
unchanged elements, with the warning prepended. -/
theorem C7_unknown_id_skips (fte : IExtractFields)
    (elements : List IExtractedGraphUnit) (unit : IOutputUnit)
    (rest : List IOutputUnit)
    (hmiss : ∀ e, e ∈ elements → e.id ≠ unit.id) :
    updateUnits fte elements (unit :: rest) =
      (updateUnits fte elements rest).map fun r =>
        (r.1, warnUnknownRow unit.id :: r.2) := by
  have hfind : findUnitIdx elements unit.id = none := by
    induction elements with
    | nil => rfl
    | cons e t ih =>
        simp only [findUnitIdx]
        rw [if_neg (hmiss e (by simp))]
        rw [ih (fun e' he' => hmiss e' (by simp [he']))]
        rfl
  simp only [updateUnits, updateUnitsStep, hfind]
  cases hr : updateUnits fte elements rest with
  | error e => simp [Except.map]
  | ok r => simp [Except.map]

theorem C7_unknown_id_skips_witness :
    updateUnits sampleSchema [sampleElement]
        [{ id := "n99", type := .node, label := .undef, fields := [] }] =
      (updateUnits sampleSchema [sampleElement] []).map fun r =>
        (r.1, warnUnknownRow "n99" :: r.2) :=
  C7_unknown_id_skips sampleSchema [sampleElement]
    { id := "n99", type := .node, label := .undef, fields := [] } []
    (by
      intro e he
      simp only [List.mem_singleton] at he
      subst he
      decide)

/-- C8, counterexample: a declared key whose named attribute matches the
requested value but which lacks an `id` attribute makes `findKeyId` fail,
although an entry does match — refuting "fails if and only if no entry
matches". -/
theorem C8_counterexample :
    lookupL (({ attrs := [("yfiles.type", "nodegraphics")] } : GraphmlKey)).attrs
      "yfiles.type" = some "nodegraphics" ∧
    findKeyId [{ attrs := [("yfiles.type", "nodegraphics")] }] "yfiles.type"
      "nodegraphics" = .error .keyMissing := ⟨rfl, rfl⟩

/-- C8 (amended): `findKeyId` succeeds with `id` exactly when the first
entry whose named attribute equals the given value also declares an `id`
attribute equal to `id`; it fails both when no entry matches and when the
first matching entry lacks an `id` attribute. -/
theorem C8_findKeyId_first_match (keys : List GraphmlKey) (attr v id : String) :
    findKeyId keys attr v = .ok id ↔
      ∃ i k0, keys.get? i = some k0 ∧
        lookupL k0.attrs attr = some v ∧
        lookupL k0.attrs "id" = some id ∧
        ∀ j k1, j < i → keys.get? j = some k1 → lookupL k1.attrs attr ≠ some v := by
  induction keys with
  | nil =>
      simp [findKeyId, List.find?]
  | cons k t ih =>
      by_cases hk : lookupL k.attrs attr = some v
      · have hfind : List.find? (fun k0 => lookupL k0.attrs attr = some v) (k :: t) =
            some k := by
          simp [List.find?, hk]
        have hstep : findKeyId (k :: t) attr v =
            match lookupL k.attrs "id" with
            | none => Except.error JSError.keyMissing
            | some i => Except.ok i := by
          rw [findKeyId, hfind]
        rw [hstep]
        constructor
        · intro h
          cases hid : lookupL k.attrs "id" with
          | none =>
              rw [hid] at h
              exact absurd h (by simp)
          | some id0 =>
              rw [hid] at h
              simp only [Except.ok.injEq] at h
              subst h
              refine ⟨0, k, rfl, hk, hid, ?_⟩
              intro j k1 hj hg
              exact absurd hj (Nat.not_lt_zero j)
        · rintro ⟨i, k0, hg, h1, h2, h3⟩
          cases i with
          | zero =>
              simp only [List.get?, Option.some.injEq] at hg
              subst hg
              rw [h2]
          | succ i' =>
              exact absurd hk (h3 0 k (Nat.succ_pos i') rfl)
      · have hfind : List.find? (fun k0 => lookupL k0.attrs attr = some v) (k :: t) =
            List.find? (fun k0 => lookupL k0.attrs attr = some v) t := by
          simp [List.find?, hk]
        have hskip : findKeyId (k :: t) attr v = findKeyId t attr v := by
          rw [findKeyId, hfind, findKeyId]
        rw [hskip, ih]
        constructor
        · rintro ⟨i, k0, hg, h1, h2, h3⟩
          refine ⟨i + 1, k0, by simpa using hg, h1, h2, ?_⟩
          intro j k1 hj hgj
          cases j with
          | zero =>
              simp only [List.get?, Option.some.injEq] at hgj
              subst hgj
              exact hk
          | succ j' =>
              exact h3 j' k1 (by omega) (by simpa using hgj)
        · rintro ⟨i, k0, hg, h1, h2, h3⟩
          cases i with
          | zero =>
              simp only [List.get?, Option.some.injEq] at hg
              subst hg
              exact absurd h1 hk
          | succ i' =>
              refine ⟨i', k0, by simpa using hg, h1, h2, ?_⟩
              intro j k1 hj hgj
              exact h3 (j + 1) k1 (by omega) (by simpa using hgj)

/-- A collected node element that does carry a `y:NodeLabel` block. -/
def sampleLabeled : IExtractedGraphUnit :=
  { id := "n2", type := .node, data := .field [], attributes := some [],
    unitType := "y:ShapeNode",
    elements := .field [("y:NodeLabel", .arr [.field [("_", .str "Old")]]),
                        ("y:Fill", .field [("color", .str "red")])] }

/-- C9: the merge sentinel semantics for a matched record: an `undefined`
user-field value leaves everything unchanged and warns nothing; an explicit
`null` value is written through the schema path as the empty string; a
`null` label is written at the fixed label path as the empty string. -/
theorem C9_undefined_vs_null (fte : IExtractFields)
    (elements : List IExtractedGraphUnit) (i : Nat) (e : IExtractedGraphUnit)
    (id : String)
    (hfind : findUnitIdx elements id = some i)
    (hget : elements.get? i = some e) :
    (∀ f, updateUnits fte elements
        [{ id := id, type := e.type, label := .undef, fields := [(f, .undef)] }] =
      .ok (elements, [])) ∧
    (∀ f p newE, lookupL (effectiveFields fte e.type) f = some p →
      setNestedProperty e.elements (p.map JSKey.str) (.str "") = .ok newE →
      updateUnits fte elements
          [{ id := id, type := e.type, label := .undef, fields := [(f, .null)] }] =
        .ok (elements.set i { e with elements := newE }, [])) ∧
    (∀ newE, setNestedProperty e.elements (labelPath e.type) (.str "") = .ok newE →
      updateUnits fte elements
          [{ id := id, type := e.type, label := .null, fields := [] }] =
        .ok (elements.set i { e with elements := newE }, [])) := by
  refine ⟨?_, ?_, ?_⟩
  · intro f
    have hfields : applyFields (effectiveFields fte e.type) e.elements [(f, .undef)] =
        .ok (e.elements, []) := by
      rw [applyFields_undef, applyFields_nil]
    have happly : applyUnit fte e
        { id := id, type := e.type, label := .undef, fields := [(f, .undef)] } =
        .ok (e, []) :=
      applyUnit_undef_label fte e id [(f, .undef)] (e.elements, []) hfields
    have h := updateUnits_single fte elements i e e _ [] hfind hget happly
    rw [set_get?_self elements i e hget] at h
    exact h
  · intro f p newE hpath hset
    have hfields : applyFields (effectiveFields fte e.type) e.elements [(f, .null)] =
        .ok (newE, []) := by
      rw [applyFields_null _ _ _ _ _ _ hpath hset, applyFields_nil]
    exact updateUnits_single fte elements i e _ _ [] hfind hget
      (applyUnit_undef_label fte e id [(f, .null)] (newE, []) hfields)
  · intro newE hset
    have happly : applyUnit fte e
        { id := id, type := e.type, label := .null, fields := [] } =
        .ok ({ e with elements := newE }, []) :=
      applyUnit_with_label fte e id .null [] newE (newE, []) (by simp) hset
        (applyFields_nil _ _)
    exact updateUnits_single fte elements i e _ _ [] hfind hget happly

theorem C9_undefined_vs_null_witness :
    updateUnits sampleSchema [sampleElement]
        [{ id := "n1", type := .node, label := .undef,
           fields := [("color", .undef)] }] = .ok ([sampleElement], []) ∧
    updateUnits sampleSchema [sampleElement]
        [{ id := "n1", type := .node, label := .undef,
           fields := [("color", .null)] }] =
      .ok ([sampleElement].set 0
        { sampleElement with
            elements := .field [("y:Fill", .field [("color", .str "")]),
                                ("y:Geometry", .field [("w", .str "30")])] }, []) ∧
    updateUnits sampleSchema [sampleLabeled]
        [{ id := "n2", type := .node, label := .null, fields := [] }] =
      .ok ([sampleLabeled].set 0
        { sampleLabeled with
            elements := .field [("y:NodeLabel", .arr [.field [("_", .str "")]]),
                                ("y:Fill", .field [("color", .str "red")])] }, []) := by
  refine ⟨?_, ?_, ?_⟩
  · exact (C9_undefined_vs_null sampleSchema [sampleElement] 0 sampleElement "n1"
      rfl rfl).1 "color"
  · exact (C9_undefined_vs_null sampleSchema [sampleElement] 0 sampleElement "n1"
      rfl rfl).2.1 "color" ["y:Fill", "color"] _ rfl rfl
  · exact (C9_undefined_vs_null sampleSchema [sampleLabeled] 0 sampleLabeled "n2"
      rfl rfl).2.2 _ rfl

/-- C10: every extracted flat record carries a label resolved from the fixed
path `['y:NodeLabel'|'y:EdgeLabel', '[0]', '_']` independently of the
user-supplied schema (`null` when the path does not resolve), and the merge
engine writes an edited label back through that same fixed path, not through
the schema. -/
theorem C10_label_fixed_path :
    (∀ (fte1 fte2 : IExtractFields) (element : IExtractedGraphUnit),
      (extractFieldsOne fte1 element).label = (extractFieldsOne fte2 element).label) ∧
    (∀ (fte : IExtractFields) (element : IExtractedGraphUnit), element.type = .node →
      (extractFieldsOne fte element).label =
        match getNestedString element.elements
            [.str "y:NodeLabel", .str "[0]", .str "_"] with
        | .ok s => JSVal.str s
        | .error _ => JSVal.null) ∧
    (∀ (fte : IExtractFields) (element : IExtractedGraphUnit), element.type = .edge →
      (extractFieldsOne fte element).label =
        match getNestedString element.elements
            [.str "y:EdgeLabel", .str "[0]", .str "_"] with
        | .ok s => JSVal.str s
        | .error _ => JSVal.null) ∧
    (∀ (fte : IExtractFields) (elements : List IExtractedGraphUnit) (i : Nat)
        (e : IExtractedGraphUnit) (id l : String) (newE : IXMLValue),
      findUnitIdx elements id = some i → elements.get? i = some e →
      setNestedProperty e.elements (labelPath e.type) (.str l) = .ok newE →
      updateUnits fte elements
          [{ id := id, type := e.type, label := .str l, fields := [] }] =
        .ok (elements.set i { e with elements := newE }, [])) ∧
    (labelPath .node = [.str "y:NodeLabel", .str "[0]", .str "_"] ∧
     labelPath .edge = [.str "y:EdgeLabel", .str "[0]", .str "_"]) := by
  refine ⟨?_, ?_, ?_, ?_, rfl, rfl⟩
  · intro fte1 fte2 element
    rfl
  · intro fte element ht
    have hlp : labelPath element.type = [.str "y:NodeLabel", .str "[0]", .str "_"] := by
      rw [ht]
      rfl
    have hbase : (extractFieldsOne fte element).label =
        match tryGetString element.elements (labelPath element.type) with
        | some s => JSVal.str s
        | none => JSVal.null := rfl
    rw [hbase, hlp]
    cases hgs : getNestedString element.elements
        [.str "y:NodeLabel", .str "[0]", .str "_"] with
    | ok s => simp [tryGetString, hgs]
    | error e => simp [tryGetString, hgs]
  · intro fte element ht
    have hlp : labelPath element.type = [.str "y:EdgeLabel", .str "[0]", .str "_"] := by
      rw [ht]
      rfl
    have hbase : (extractFieldsOne fte element).label =
        match tryGetString element.elements (labelPath element.type) with
        | some s => JSVal.str s
        | none => JSVal.null := rfl
    rw [hbase, hlp]
    cases hgs : getNestedString element.elements
        [.str "y:EdgeLabel", .str "[0]", .str "_"] with
    | ok s => simp [tryGetString, hgs]
    | error e => simp [tryGetString, hgs]
  · intro fte elements i e id l newE hfind hget hset
    have happly : applyUnit fte e
        { id := id, type := e.type, label := .str l, fields := [] } =
        .ok ({ e with elements := newE }, []) :=
      applyUnit_with_label fte e id (.str l) [] newE (newE, []) (by simp) hset
        (applyFields_nil _ _)
    exact updateUnits_single fte elements i e _ _ [] hfind hget happly

theorem C10_label_fixed_path_witness :
    (extractFieldsOne sampleSchema sampleLabeled).label =
      (match getNestedString sampleLabeled.elements
          [.str "y:NodeLabel", .str "[0]", .str "_"] with
       | .ok s => JSVal.str s
       | .error _ => JSVal.null) ∧
    updateUnits sampleSchema [sampleLabeled]
        [{ id := "n2", type := .node, label := .str "New", fields := [] }] =
      .ok ([sampleLabeled].set 0
        { sampleLabeled with
            elements := .field [("y:NodeLabel", .arr [.field [("_", .str "New")]]),
                                ("y:Fill", .field [("color", .str "red")])] }, []) := by
  refine ⟨C10_label_fixed_path.2.1 sampleSchema sampleLabeled rfl, ?_⟩
  exact C10_label_fixed_path.2.2.2.1 sampleSchema [sampleLabeled] 0 sampleLabeled
    "n2" "New" _ rfl rfl rfl

end Yedxtract
